import Mathlib

/-!
Shallow embedding of the `timevariants` benchmark harness (Go) and proofs
about it.  Pure data and control flow are transcribed directly from the
source; external effects (process launches, the wall clock, the ambient
environment, git output, the filesystem) are supplied as explicit
parameters/oracles and the writes performed by the program are returned as
explicit data.
-/

namespace TimeVariants

/-- Constant `sh` from the source: the shell used to run generated scripts. -/
def sh : String := "/bin/sh"

/-- Constant `prog` from the source. -/
def prog : String := "kubelet"

/-- Constant `progpath` from the source. -/
def progpath : String := "k8s.io/kubernetes/cmd/kubelet"

/-- Command-line flags of the harness (the global `*xxxflag` variables). -/
structure Flags where
  verb : Bool
  build : Bool
  numit : Nat
  nodebug : Bool
  dryrun : Bool
  perflock : Bool
  deriving DecidableEq, Repr

/-- Outcome of launching one external command (`cmd.CombinedOutput()`):
either success with the combined stdout/stderr text, or failure (nonzero
exit or launch failure) with an error message and the combined output. -/
inductive CmdResult where
  | ok (out : String)
  | fail (msg : String) (out : String)
  deriving DecidableEq, Repr

/-- Lines produced by one `runCmd` call: `outLines` are appended to the
destination stream `outf`, `errLines` go to stderr. -/
structure RunResult where
  outLines : List String
  errLines : List String
  deriving DecidableEq, Repr

/-- The benchmark record line `fmt.Fprintf(outf, "%s 1 %d ns/op\n", name, took)`
(one line; the trailing newline is implicit in the line-based model). -/
def recordLine (name : String) (ns : Nat) : String :=
  name ++ " 1 " ++ toString ns ++ " ns/op"

/-- Embedding of `runCmd`.  `res` is the outcome the external command would
produce (consulted only when a process is actually launched) and `elapsed`
is the duration measured by the `time.Now()` / `time.Since(start)` pair,
in nanoseconds.  In dry-run mode no process is launched, but the timer is
still read and the record line is still written to `outf`; on failure the
function returns early with the wrapped error, before the record write. -/
def runCmd (fl : Flags) (name : String) (res : CmdResult) (elapsed : Nat) :
    Except String RunResult :=
  if fl.dryrun then
    Except.ok
      { outLines := [recordLine name elapsed]
        errLines := ["... executing timing run"] ++
          (if fl.verb then ["... timing run took " ++ toString elapsed ++ " ns"] else []) }
  else
    match res with
    | CmdResult.fail msg out => Except.error (msg ++ "\n" ++ out)
    | CmdResult.ok out =>
        Except.ok
          { outLines := [recordLine name elapsed]
            errLines :=
              (if fl.verb then ["... output: " ++ out] else []) ++
              (if fl.verb then ["... timing run took " ++ toString elapsed ++ " ns"] else []) }

/-- Character-level model of `strings.HasPrefix`: is the first list a
prefix of the second? -/
def hasPrefixCh : List Char → List Char → Bool
  | [], _ => true
  | _ :: _, [] => false
  | p :: ps, c :: cs => p = c && hasPrefixCh ps cs

/-- Model of `strings.HasPrefix(s, p)` (argument order: prefix first). -/
def hasPrefixStr (p s : String) : Bool :=
  hasPrefixCh p.data s.data

/-- Embedding of `addGoMaxProcsEnv`.  `ambient` stands for `os.Environ()`,
substituted when the supplied base list is empty.  The loop that copies
every entry not starting with `"GOMAXPROCS="` into the fresh slice `rv` is
transcribed as a left fold, and the new entry is appended afterwards. -/
def addGoMaxProcsEnv (ambient : List String) (env : List String) (gomaxp : Int) :
    List String :=
  let base := if env.length = 0 then ambient else env
  let rv := base.foldl
    (fun rv v => if hasPrefixStr "GOMAXPROCS=" v then rv else rv ++ [v]) []
  rv ++ ["GOMAXPROCS=" ++ toString gomaxp]

/-- The copying loop of `addGoMaxProcsEnv` keeps exactly the entries that do
not start with `"GOMAXPROCS="`, in their original order. -/
lemma addGoMaxProcsEnv_foldl (acc : List String) (base : List String) :
    base.foldl (fun rv v => if hasPrefixStr "GOMAXPROCS=" v then rv else rv ++ [v]) acc =
      acc ++ base.filter (fun v => !hasPrefixStr "GOMAXPROCS=" v) := by
  induction base generalizing acc with
  | nil => simp
  | cons x xs ih =>
      by_cases hx : hasPrefixStr "GOMAXPROCS=" x <;>
        simp [List.foldl_cons, hx, ih, List.filter_cons]

/-- Unfolded form of `addGoMaxProcsEnv`: the non-GOMAXPROCS entries of the
base (the ambient environment when the base is empty), in order, followed by
the single fresh entry. -/
lemma addGoMaxProcsEnv_eq (ambient env : List String) (p : Int) :
    addGoMaxProcsEnv ambient env p =
      ((if env.length = 0 then ambient else env).filter
          (fun v => !hasPrefixStr "GOMAXPROCS=" v)) ++
        ["GOMAXPROCS=" ++ toString p] := by
  simp only [addGoMaxProcsEnv, addGoMaxProcsEnv_foldl, List.nil_append]

/-- One row of `variants.txt` (the `variant` struct of the source). -/
structure Variant where
  tag : String
  goroot : String
  extras : String
  gomaxp : Int
  deriving DecidableEq, Repr

/-- Scan of a nonempty run of decimal digits at the front of the character
list; returns the value of the digit prefix (trailing characters are
ignored, as `fmt.Sscanf` ignores input left over after the format). -/
def scanDigits (cs : List Char) : Option Nat :=
  let ds := cs.takeWhile (fun c => c.isDigit)
  if ds.isEmpty then none
  else some (ds.foldl (fun acc c => acc * 10 + (c.toNat - 48)) 0)

/-- Model of `fmt.Sscanf(s, "%d", &x)` scanning into a 64-bit Go `int`:
skip leading in-line whitespace (space, tab, vertical tab, form feed,
carriage return), read an optional sign and then at least one decimal
digit, and range-check the value as `strconv.ParseInt(tok, 10, 64)` does —
an out-of-range token is a scan error.  Characters after the scanned
number are ignored.  `none` models `err != nil || n != 1` (no digits, or a
value outside `[-2^63, 2^63 - 1]`).  (Fields scanned here come from a
colon-split scanner line, so they cannot contain a newline, whose Sscanf
treatment is special.) -/
def sscanfInt (s : String) : Option Int :=
  let cs := s.data.dropWhile (fun c =>
    c = ' ' ∨ c = '\t' ∨ c = '\x0b' ∨ c = '\x0c' ∨ c = '\r')
  match cs with
  | '-' :: rest =>
      (scanDigits rest).bind (fun n =>
        if n ≤ 2 ^ 63 then some (-(n : Int)) else none)
  | '+' :: rest =>
      (scanDigits rest).bind (fun n =>
        if n < 2 ^ 63 then some ((n : Int)) else none)
  | _ =>
      (scanDigits cs).bind (fun n =>
        if n < 2 ^ 63 then some ((n : Int)) else none)

/-- Fatal outcomes of `readvariants` (each `log.Fatal*` call site). -/
inductive LoadErr where
  | malformed (lineNum : Nat) (ntokens : Nat)
  | badGomaxp (tag : String) (value : String)
  | invalidGomaxp (tag : String)
  | dupTag (tag : String)
  | noContent
  | goCmdMissing (path : String)
  deriving DecidableEq, Repr

/-- Warning line for a duplicated goroot. -/
def rootWarn (goroot : String) : String :=
  "warning: goroot " ++ goroot ++ " appears more than once in variants.txt"

/-- Warning line for a single-entry variants file. -/
def singleWarn : String :=
  "warning: variants.txt file has only a single entry"

/-- Mutable state of the scanning loop in `readvariants`: the line counter,
the `tags` and `roots` sets (kept as insertion-ordered lists), the
`variants` slice and the warnings printed so far. -/
structure LoopState where
  lineNum : Nat
  tags : List String
  roots : List String
  vars : List Variant
  warns : List String
  deriving DecidableEq, Repr

/-- Initial loop state (`lineNum := 1`, everything else empty). -/
def initState : LoopState := ⟨1, [], [], [], []⟩

/-- Processing of the fields of one data line, after the token-count switch:
parse the optional GOMAXPROCS field, append the variant, fail on a
duplicated tag, warn on a duplicated goroot, and advance the line counter. -/
def processFields (st : LoopState) (tag goroot extras gomaxps : String) :
    Except LoadErr LoopState :=
  let pg : Except LoadErr Int :=
    if gomaxps = "" then Except.ok 0
    else
      match sscanfInt gomaxps with
      | none => Except.error (LoadErr.badGomaxp tag gomaxps)
      | some g =>
          if g < 1 then Except.error (LoadErr.invalidGomaxp tag) else Except.ok g
  match pg with
  | Except.error e => Except.error e
  | Except.ok g =>
      let vars := st.vars ++ [⟨tag, goroot, extras, g⟩]
      if st.tags.contains tag then Except.error (LoadErr.dupTag tag)
      else
        let warns :=
          if st.roots.contains goroot then st.warns ++ [rootWarn goroot] else st.warns
        Except.ok ⟨st.lineNum + 1, st.tags ++ [tag], st.roots ++ [goroot], vars, warns⟩

/-- Character-level split on a separator character: the list of (possibly
empty) chunks between occurrences of `sep`; always nonempty, and a list
with `n` separators yields `n + 1` chunks, exactly as `strings.Split`. -/
def splitCh (sep : Char) : List Char → List (List Char)
  | [] => [[]]
  | c :: cs =>
      if c = sep then [] :: splitCh sep cs
      else
        match splitCh sep cs with
        | t :: ts => (c :: t) :: ts
        | [] => [[c]]

/-- Model of `strings.Split(line, ":")` (single-character separator). -/
def splitColon (s : String) : List String :=
  (splitCh ':' s.data).map (fun l => ⟨l⟩)

/-- Processing of one line of `variants.txt`, exactly as the loop body does:
an empty line is skipped without touching the counter, a `#` line bumps the
counter, and otherwise the colon-split token count selects the fields (any
other count is fatal, reported with the current counter value). -/
def processLine (st : LoopState) (line : String) : Except LoadErr LoopState :=
  if line.length = 0 then Except.ok st
  else if line.data.head? = some '#' then
    Except.ok { st with lineNum := st.lineNum + 1 }
  else
    let tokens := splitColon line
    match tokens with
    | [tag, goroot] => processFields st tag goroot "" ""
    | [tag, goroot, extras] => processFields st tag goroot extras ""
    | [tag, goroot, extras, gomaxps] => processFields st tag goroot extras gomaxps
    | _ => Except.error (LoadErr.malformed st.lineNum tokens.length)

/-- The scanning loop of `readvariants` over the lines of the file. -/
def readLoop : List String → LoopState → Except LoadErr LoopState
  | [], st => Except.ok st
  | l :: rest, st => (processLine st l).bind (readLoop rest)

/-- Successful outcome of `readvariants`: the loaded variants and the
warning lines emitted. -/
structure LoadResult where
  vars : List Variant
  warns : List String
  deriving DecidableEq, Repr

/-- Embedding of `readvariants` on the list of lines of `variants.txt`.
`canOpen` models `os.Open` on a path (the `<goroot>/bin/go` sanity check
performed for each variant, in order, after the loop); the zero-variant
fatal and single-variant warning follow the loop, before that check. -/
def readvariants (lines : List String) (canOpen : String → Bool) :
    Except LoadErr LoadResult :=
  match readLoop lines initState with
  | Except.error e => Except.error e
  | Except.ok st =>
      if st.vars.length < 1 then Except.error LoadErr.noContent
      else
        let warns :=
          if st.vars.length = 1 then st.warns ++ [singleWarn] else st.warns
        match st.vars.find? (fun v => !canOpen (v.goroot ++ "/bin/go")) with
        | some v => Except.error (LoadErr.goCmdMissing (v.goroot ++ "/bin/go"))
        | none => Except.ok ⟨st.vars, warns⟩

/-- A data line that the loop accepts always advances the line counter by
exactly one. -/
lemma processFields_ok_lineNum {st st' : LoopState} {t g e m : String}
    (h : processFields st t g e m = Except.ok st') :
    st'.lineNum = st.lineNum + 1 := by
  simp only [processFields] at h
  split at h
  · simp at h
  · split at h
    · simp at h
    · injection h with h
      subst h
      rfl

/-- A successful step of the loop advances the line counter by one for a
comment or data line and leaves it unchanged for a blank line. -/
lemma processLine_ok_lineNum {st st' : LoopState} {l : String}
    (h : processLine st l = Except.ok st') :
    st'.lineNum = st.lineNum + (if l.length = 0 then 0 else 1) := by
  simp only [processLine] at h
  split at h
  · next hlen =>
      injection h with h
      subst h
      simp [hlen]
  · next hlen =>
      split at h
      · injection h with h
        subst h
        simp [hlen]
      · split at h
        · next => simpa [hlen] using processFields_ok_lineNum h
        · next => simpa [hlen] using processFields_ok_lineNum h
        · next => simpa [hlen] using processFields_ok_lineNum h
        · next => simp at h

/-- The scanning loop distributes over list append. -/
lemma readLoop_append (xs ys : List String) (st : LoopState) :
    readLoop (xs ++ ys) st = (readLoop xs st).bind (readLoop ys) := by
  induction xs generalizing st with
  | nil => simp [readLoop, Except.bind]
  | cons x xs ih =>
      simp only [List.cons_append, readLoop]
      cases hp : processLine st x with
      | error e => simp [Except.bind]
      | ok st1 => simp [Except.bind, ih]

/-- Across a successful run of the loop, the line counter grows by the
number of non-blank (comment or data) lines, not by the number of lines. -/
lemma readLoop_ok_lineNum {ls : List String} {st st' : LoopState}
    (h : readLoop ls st = Except.ok st') :
    st'.lineNum = st.lineNum + ls.countP (fun s => !(s.length == 0)) := by
  induction ls generalizing st with
  | nil =>
      simp only [readLoop] at h
      injection h with h
      subst h
      simp
  | cons l rest ih =>
      simp only [readLoop] at h
      cases hp : processLine st l with
      | error e => rw [hp] at h; simp [Except.bind] at h
      | ok st1 =>
          rw [hp] at h
          simp only [Except.bind] at h
          have h1 := processLine_ok_lineNum hp
          have h2 := ih h
          rw [h2, h1, List.countP_cons]
          by_cases hlen : l.length = 0
          · simp [hlen]
          · simp [hlen]
            omega

/-- Every string is extended by appending: the original is a prefix. -/
lemma hasPrefixCh_append (ps cs : List Char) : hasPrefixCh ps (ps ++ cs) = true := by
  induction ps with
  | nil => rfl
  | cons p ps ih => simp [hasPrefixCh, ih]

end TimeVariants

namespace TimeVariants

/-- Character-level worker for the `strings.Fields` model: split on runs of
whitespace, producing no empty fields.  `acc` holds the current field,
reversed. -/
def fieldsAux : List Char → List Char → List (List Char)
  | [], [] => []
  | [], acc => [acc.reverse]
  | c :: cs, acc =>
      if c = ' ' ∨ c = '\t' ∨ c = '\n' ∨ c = '\r' then
        if acc.isEmpty then fieldsAux cs [] else acc.reverse :: fieldsAux cs []
      else fieldsAux cs (c :: acc)

/-- Model of `strings.Fields(s)`: the whitespace-separated tokens of `s`. -/
def strFields (s : String) : List String :=
  (fieldsAux s.data []).map (fun l => (⟨l⟩ : String))

/-- Model of `strings.ToUpper(string(tag[0])) + tag[1:]`.  In the program
the tag is always `"relink"` or `"rebuild"`, hence nonempty ASCII; Go would
panic on an empty tag, modeled here as the empty string. -/
def upFirst (s : String) : String :=
  match s.data with
  | [] => ""
  | c :: cs => (⟨c.toUpper :: cs⟩ : String)

/-- Embedding of `grabVariantHash`, applied to the combined output of the
`git -C <goroot> log -1 --oneline` command: the first space-delimited chunk
of the output.  `none` models the fatal bad-output branch (no chunks, or an
empty first chunk). -/
def grabVariantHash (gitOut : String) : Option String :=
  match splitCh ' ' gitOut.data with
  | [] => none
  | c :: _ => if c.isEmpty then none else some (⟨c⟩ : String)

/-- Content (as lines) of the clean script written by `emitCleanScript`:
in dry-run mode the removal command is omitted from the generated text. -/
def emitCleanScript (fl : Flags) : List String :=
  ["#!/bin/sh"] ++
    (if !fl.dryrun then
      ["rm -rf ./_output/local/go/bin/" ++ prog ++
        " ./_output/local/bin/linux/amd64/" ++ prog]
    else [])

/-- Content (as lines) of the build/relink script written by `emitScript`
for variant `v` with the extra build-flag string `extra`. -/
def emitScript (fl : Flags) (v : Variant) (extra : String) : List String :=
  ["#!/bin/sh",
   "HERE=`pwd`",
   "WARMUP=\"$1\"",
   "if [ \"$WARMUP\" = \"warmup\" ]; then",
   "  shift",
   "fi",
   "export INJECT=\"$*\"",
   "export GOCACHE=$HERE/_output/local/go/cache",
   "export GOPATH=$HERE/_output/local/go",
   "export PATH=\"" ++ v.goroot ++ "/bin:${PATH}\""] ++
  (if !fl.dryrun then
    (if !fl.build then
      ["if [ \"$WARMUP\" = \"warmup\" ]; then",
       "  go install -i " ++ progpath,
       "fi"]
    else []) ++
    ["rm -f /tmp/" ++ prog ++ "." ++ v.tag] ++
    (if fl.build then ["go clean -cache"] else []) ++
    [(if fl.perflock then "perflock " else "") ++
      "go build -o /tmp/" ++ prog ++ "." ++ v.tag ++ " " ++ extra ++ " " ++ progpath]
  else [])

/-- One external command launch: the argument vector handed to
`exec.Command` and the process environment (`cmd.Env`; `none` is a nil
`Env`, meaning the ambient environment). -/
structure Invocation where
  argv : List String
  env : Option (List String)
  deriving DecidableEq, Repr

/-- The extra build-flag string of the stripped-symbol phase. -/
def ldflagsNoDebug : String := "-ldflags=\"-s -w\""

/-- Oracles for the external world during one `doVariant` call: `res k` is
the outcome of the k-th shell launch (0-based; the git launch is reported
through `gitRes`), `elapsed j` is the wall-clock duration measured around
the j-th `runCmd` call, and `ambient` stands for `os.Environ()`. -/
structure Oracle where
  res : Nat → CmdResult
  elapsed : Nat → Nat
  gitRes : CmdResult
  ambient : List String

/-- Observable outcome of one `doVariant` call: the output file name
(`none` when the run aborted before resolving it), the lines written to the
output stream (possibly truncated by a fatal abort), the build-script
contents generated, the shell/git invocations launched (in order), and the
fatal message if the run aborted. -/
structure DVOut where
  fn : Option String
  written : List String
  emits : List (List String)
  invs : List Invocation
  abort : Option String
  deriving DecidableEq, Repr

/-- Partial outcome of one timing loop: lines written, invocations
launched, fatal message if aborted, and the updated launch and timing
counters. -/
structure LoopOut where
  written : List String
  invs : List Invocation
  abort : Option String
  k : Nat
  j : Nat
  deriving DecidableEq, Repr

/-- The timing loop of `doVariant` (shared by the normal and the
stripped-symbol phase): each iteration launches the clean script and then
the timed command `timed` through `runCmd` under benchmark name `bentag`.
`n` counts the remaining iterations, `k` the shell launches so far and `j`
the `runCmd` calls so far.  A clean failure or a `runCmd` error is
`log.Fatal`, truncating the outputs.  In dry-run mode `runCmd` launches
nothing, so the timed command is not recorded as an invocation and the
launch counter does not advance for it (its would-be outcome is passed to
`runCmd`, which ignores it in that mode). -/
def timingLoop (fl : Flags) (orc : Oracle) (cleanScript : String)
    (timed : Invocation) (bentag : String) :
    Nat → Nat → Nat → LoopOut
  | 0, k, j => ⟨[], [], none, k, j⟩
  | n + 1, k, j =>
      let cinv : Invocation := ⟨[sh, cleanScript], none⟩
      match orc.res k with
      | CmdResult.fail m _ => ⟨[], [cinv], some m, k + 1, j⟩
      | CmdResult.ok _ =>
          let launched : Nat := if fl.dryrun then 0 else 1
          let tinvs : List Invocation := if fl.dryrun then [] else [timed]
          match runCmd fl bentag (orc.res (k + 1)) (orc.elapsed j) with
          | Except.error m => ⟨[], cinv :: tinvs, some m, k + 1 + launched, j + 1⟩
          | Except.ok r =>
              let rest :=
                timingLoop fl orc cleanScript timed bentag n (k + 1 + launched) (j + 1)
              ⟨r.outLines ++ rest.written, cinv :: (tinvs ++ rest.invs),
               rest.abort, rest.k, rest.j⟩

/-- The clean-script launch. -/
def cleanInv (cleanScript : String) : Invocation := ⟨[sh, cleanScript], none⟩

/-- The `git log` launch of `grabVariantHash` for variant `v`. -/
def gitInv (v : Variant) : Invocation :=
  ⟨["git", "-C", v.goroot, "log", "-1", "--oneline"], none⟩

/-- The warmup launch: the build script with the `warmup` argument followed
by the variant's extra-args tokens. -/
def warmupInv (script : String) (v : Variant) : Invocation :=
  ⟨sh :: script :: "warmup" :: strFields v.extras, none⟩

/-- The prime launch: the build script with the variant's extra-args tokens
and the ambient environment. -/
def primeInv (script : String) (v : Variant) : Invocation :=
  ⟨sh :: script :: strFields v.extras, none⟩

/-- The environment of each timed launch: the GOMAXPROCS overlay over a nil
`cmd.Env` when the variant sets a parallelism, the ambient environment
otherwise. -/
def timedEnvOf (orc : Oracle) (v : Variant) : Option (List String) :=
  if v.gomaxp ≠ 0 then some (addGoMaxProcsEnv orc.ambient [] v.gomaxp) else none

/-- A timed launch of the normal loop: the build script with the variant's
extra-args tokens. -/
def timedInv (orc : Oracle) (script : String) (v : Variant) : Invocation :=
  ⟨sh :: script :: strFields v.extras, timedEnvOf orc v⟩

/-- A timed launch of the stripped-symbol loop: the build script with no
further arguments. -/
def strippedInv (orc : Oracle) (script : String) (v : Variant) : Invocation :=
  ⟨[sh, script], timedEnvOf orc v⟩

/-- Output of the two timed phases of `doVariant`, entered once the setup
runs have succeeded. -/
structure TimedOut where
  written : List String
  emits : List (List String)
  invs : List Invocation
  abort : Option String
  deriving DecidableEq, Repr

/-- The timed phases of `doVariant`: the normal timing loop under the
benchmark tag, then (when the stripped-symbol flag is on and the first loop
did not abort) the regeneration of the build script with the
`-ldflags="-s -w"` extra and a second loop, with no arguments beyond the
script path, under the suffixed name.  `k0` is the number of shell launches
performed by the setup phases. -/
def doTimed (fl : Flags) (orc : Oracle) (script cleanScript : String)
    (v : Variant) (bentag : String) (k0 : Nat) : TimedOut :=
  let lo1 := timingLoop fl orc cleanScript (timedInv orc script v) bentag fl.numit k0 0
  match lo1.abort with
  | some m => ⟨lo1.written, [], lo1.invs, some m⟩
  | none =>
      if fl.nodebug then
        let lo2 := timingLoop fl orc cleanScript (strippedInv orc script v)
          (bentag ++ "-WithoutDebug") fl.numit lo1.k lo1.j
        ⟨lo1.written ++ lo2.written, [emitScript fl v ldflagsNoDebug],
         lo1.invs ++ lo2.invs, lo2.abort⟩
      else ⟨lo1.written, [], lo1.invs, none⟩

/-- Embedding of `doVariant`: regenerate the build script, resolve the
revision and open the output file, run the initial clean, the warmup
(relink mode only) and the prime run, then the timed phases.  Every
`log.Fatal` truncates the outputs at that point. -/
def doVariant (fl : Flags) (orc : Oracle) (script cleanScript : String)
    (v : Variant) (tag : String) : DVOut :=
  let emit1 := emitScript fl v ""
  match orc.gitRes with
  | CmdResult.fail m _ => ⟨none, [], [emit1], [gitInv v], some m⟩
  | CmdResult.ok gitOut =>
      match grabVariantHash gitOut with
      | none => ⟨none, [], [emit1], [gitInv v], some "bad git log output"⟩
      | some hash =>
          let fn := "out." ++ v.tag ++ "." ++ hash ++ ".txt"
          let bentag := "Benchmark" ++ upFirst tag ++ "Kubelet"
          match orc.res 0 with
          | CmdResult.fail m _ =>
              ⟨some fn, [], [emit1], [gitInv v, cleanInv cleanScript], some m⟩
          | CmdResult.ok _ =>
              if fl.build then
                match orc.res 1 with
                | CmdResult.fail m _ =>
                    ⟨some fn, [], [emit1],
                     [gitInv v, cleanInv cleanScript, primeInv script v], some m⟩
                | CmdResult.ok _ =>
                    let t := doTimed fl orc script cleanScript v bentag 2
                    ⟨some fn, t.written, emit1 :: t.emits,
                     [gitInv v, cleanInv cleanScript, primeInv script v] ++ t.invs,
                     t.abort⟩
              else
                match orc.res 1 with
                | CmdResult.fail m _ =>
                    ⟨some fn, [], [emit1],
                     [gitInv v, cleanInv cleanScript, warmupInv script v], some m⟩
                | CmdResult.ok _ =>
                    match orc.res 2 with
                    | CmdResult.fail m _ =>
                        ⟨some fn, [], [emit1],
                         [gitInv v, cleanInv cleanScript, warmupInv script v,
                          primeInv script v], some m⟩
                    | CmdResult.ok _ =>
                        let t := doTimed fl orc script cleanScript v bentag 3
                        ⟨some fn, t.written, emit1 :: t.emits,
                         [gitInv v, cleanInv cleanScript, warmupInv script v,
                          primeInv script v] ++ t.invs, t.abort⟩

/-- The benchmark-phase tag chosen by `perform`. -/
def runTag (fl : Flags) : String := if fl.build then "rebuild" else "relink"

/-- The benchmark record name derived from the run tag. -/
def benchTag (fl : Flags) : String := "Benchmark" ++ upFirst (runTag fl) ++ "Kubelet"

/-- Association-list view of the output files on disk, most recent write
first (an `O_TRUNC` re-open is modeled by shadowing). -/
def fsRead (fsys : List (String × List String)) (fn : String) :
    Option (List String) :=
  match fsys with
  | [] => none
  | (n, c) :: rest => if n = fn then some c else fsRead rest fn

/-- File effect of one `doVariant` call: in a non-dry run the resolved
output file holds exactly the lines written (truncated on abort); dry-run
substitutes stderr and creates no file. -/
def performWrite (fl : Flags) (r : DVOut)
    (fsys : List (String × List String)) : List (String × List String) :=
  if fl.dryrun then fsys
  else
    match r.fn with
    | none => fsys
    | some fn => (fn, r.written) :: fsys

/-- The per-variant loop of `perform`: variant `i` runs `doVariant` with
its oracle `orc i`; a fatal abort stops the loop, leaving the files written
so far. -/
def performLoop (fl : Flags) (orc : Nat → Oracle) (script cleanScript : String) :
    List Variant → Nat → List (String × List String) →
      List (String × List String) × Option String
  | [], _, fsys => (fsys, none)
  | v :: rest, i, fsys =>
      let r := doVariant fl (orc i) script cleanScript v (runTag fl)
      let fsys' := performWrite fl r fsys
      match r.abort with
      | some m => (fsys', some m)
      | none => performLoop fl orc script cleanScript rest (i + 1) fsys'

/-- Embedding of `perform` (after the two script files are created): the
variants are processed in file order, starting from an empty set of output
files. -/
def perform (fl : Flags) (orc : Nat → Oracle) (script cleanScript : String)
    (vars : List Variant) : List (String × List String) × Option String :=
  performLoop fl orc script cleanScript vars 0 []

/-- The file effects of a list of completed variants, in order. -/
def performFS (fl : Flags) (orc : Nat → Oracle) (script cleanScript : String) :
    List Variant → Nat → List (String × List String) →
      List (String × List String)
  | [], _, fsys => fsys
  | v :: rest, i, fsys =>
      performFS fl orc script cleanScript rest (i + 1)
        (performWrite fl (doVariant fl (orc i) script cleanScript v (runTag fl)) fsys)

/-- A successful non-dry `runCmd` call appends exactly the record line. -/
lemma runCmd_ok (fl : Flags) (name o : String) (e : Nat) (hdry : fl.dryrun = false) :
    runCmd fl name (CmdResult.ok o) e =
      Except.ok ⟨[recordLine name e],
        (if fl.verb then ["... output: " ++ o] else []) ++
          (if fl.verb then ["... timing run took " ++ toString e ++ " ns"] else [])⟩ := by
  simp [runCmd, hdry]

/-- A failed non-dry `runCmd` call returns the wrapped error and appends
nothing: the early return precedes the record write. -/
lemma runCmd_fail (fl : Flags) (name m o : String) (e : Nat)
    (hdry : fl.dryrun = false) :
    runCmd fl name (CmdResult.fail m o) e = Except.error (m ++ "\n" ++ o) := by
  simp [runCmd, hdry]

/-- Splitting a map over an initial range at its first element. -/
lemma range_map_shift {α : Type} (f : Nat → α) (n j : Nat) :
    (List.range (n + 1)).map (fun i => f (j + i)) =
      f j :: (List.range n).map (fun i => f (j + 1 + i)) := by
  rw [List.range_succ_eq_map, List.map_cons, List.map_map]
  simp only [Nat.add_zero]
  congr 1
  congr 1
  funext i
  simp only [Function.comp_apply]
  congr 1
  omega

/-- Happy path of the timing loop in a non-dry run: `n` iterations, each a
clean launch followed by a timed launch, one record line appended per
iteration, no abort, both counters advanced. -/
lemma timingLoop_ok (fl : Flags) (orc : Oracle) (cs : String) (timed : Invocation)
    (bentag : String) (hdry : fl.dryrun = false)
    (hok : ∀ i, ∃ o, orc.res i = CmdResult.ok o) :
    ∀ n k j, timingLoop fl orc cs timed bentag n k j =
      ⟨(List.range n).map (fun i => recordLine bentag (orc.elapsed (j + i))),
       (List.replicate n [cleanInv cs, timed]).flatten,
       none, k + 2 * n, j + n⟩ := by
  intro n
  induction n with
  | zero => intro k j; simp [timingLoop]
  | succ n ih =>
      intro k j
      obtain ⟨o1, ho1⟩ := hok k
      obtain ⟨o2, ho2⟩ := hok (k + 1)
      simp only [timingLoop, ho1, ho2, runCmd_ok fl bentag o2 (orc.elapsed j) hdry,
        hdry, Bool.false_eq_true, if_false, ih]
      congr 1
      · rw [range_map_shift (fun d => recordLine bentag (orc.elapsed d)) n j]
        rfl
      · omega
      · omega

/-- Happy path of the timed phases in a non-dry run: the normal loop writes
`numit` base-name record lines, and with the stripped-symbol flag on, the
build script is regenerated with the `-ldflags="-s -w"` extra and the
second loop appends `numit` suffixed lines, all in that order. -/
lemma doTimed_ok (fl : Flags) (orc : Oracle) (script cs : String) (v : Variant)
    (bentag : String) (k0 : Nat) (hdry : fl.dryrun = false)
    (hok : ∀ i, ∃ o, orc.res i = CmdResult.ok o) :
    doTimed fl orc script cs v bentag k0 =
      ⟨(List.range fl.numit).map (fun i => recordLine bentag (orc.elapsed i)) ++
        (if fl.nodebug then
          (List.range fl.numit).map (fun i =>
            recordLine (bentag ++ "-WithoutDebug") (orc.elapsed (fl.numit + i)))
         else []),
       (if fl.nodebug then [emitScript fl v ldflagsNoDebug] else []),
       (List.replicate fl.numit [cleanInv cs, timedInv orc script v]).flatten ++
        (if fl.nodebug then
          (List.replicate fl.numit [cleanInv cs, strippedInv orc script v]).flatten
         else []),
       none⟩ := by
  simp only [doTimed, timingLoop_ok fl orc cs _ _ hdry hok, Nat.zero_add]
  by_cases hnod : fl.nodebug <;> simp [hnod]

/-- Happy path of `doVariant` in a non-dry run: the output file is named
from the tag and the resolved revision, the setup launches happen in order,
the normal loop writes `numit` base-name lines and, with the
stripped-symbol flag on, the regenerated script's loop appends `numit`
suffixed lines. -/
lemma doVariant_ok (fl : Flags) (orc : Oracle) (script cs : String) (v : Variant)
    (tag : String) (g h : String)
    (hdry : fl.dryrun = false)
    (hok : ∀ i, ∃ o, orc.res i = CmdResult.ok o)
    (hgit : orc.gitRes = CmdResult.ok g)
    (hhash : grabVariantHash g = some h) :
    doVariant fl orc script cs v tag =
      ⟨some ("out." ++ v.tag ++ "." ++ h ++ ".txt"),
       (List.range fl.numit).map (fun i =>
          recordLine ("Benchmark" ++ upFirst tag ++ "Kubelet") (orc.elapsed i)) ++
         (if fl.nodebug then
           (List.range fl.numit).map (fun i =>
             recordLine ("Benchmark" ++ upFirst tag ++ "Kubelet" ++ "-WithoutDebug")
               (orc.elapsed (fl.numit + i)))
          else []),
       emitScript fl v "" ::
         (if fl.nodebug then [emitScript fl v ldflagsNoDebug] else []),
       [gitInv v, cleanInv cs] ++
         (if fl.build then [] else [warmupInv script v]) ++ [primeInv script v] ++
         ((List.replicate fl.numit [cleanInv cs, timedInv orc script v]).flatten ++
           (if fl.nodebug then
             (List.replicate fl.numit [cleanInv cs, strippedInv orc script v]).flatten
            else [])),
       none⟩ := by
  obtain ⟨o0, ho0⟩ := hok 0
  obtain ⟨o1, ho1⟩ := hok 1
  obtain ⟨o2, ho2⟩ := hok 2
  simp only [doVariant, hgit, hhash, ho0, ho1, ho2,
    doTimed_ok fl orc script cs v _ _ hdry hok]
  by_cases hb : fl.build <;> simp [hb]

/-- Failure of the timed launch at iteration `t` of the timing loop in a
non-dry run: the loop keeps the `t` record lines of the completed
iterations, then aborts with the wrapped error of the failed invocation;
no record line is written for it and none after it. -/
lemma timingLoop_fail (fl : Flags) (orc : Oracle) (cs : String) (timed : Invocation)
    (bentag : String) (hdry : fl.dryrun = false) (m o : String) :
    ∀ t n k j, t < n →
      (∀ i, i < 2 * t + 1 → ∃ ou, orc.res (k + i) = CmdResult.ok ou) →
      orc.res (k + (2 * t + 1)) = CmdResult.fail m o →
      timingLoop fl orc cs timed bentag n k j =
        ⟨(List.range t).map (fun i => recordLine bentag (orc.elapsed (j + i))),
         (List.replicate t [cleanInv cs, timed]).flatten ++ [cleanInv cs, timed],
         some (m ++ "\n" ++ o), k + (2 * t + 2), j + t + 1⟩ := by
  intro t
  induction t with
  | zero =>
      intro n k j hn hok hfail
      obtain ⟨o1, ho1⟩ := hok 0 (by omega)
      rw [Nat.add_zero] at ho1
      cases n with
      | zero => omega
      | succ n' =>
          have hf1 : orc.res (k + 1) = CmdResult.fail m o := by
            simpa using hfail
          simp only [timingLoop, ho1, hf1,
            runCmd_fail fl bentag m o (orc.elapsed j) hdry, hdry,
            Bool.false_eq_true, if_false]
          rfl
  | succ t ih =>
      intro n k j hn hok hfail
      cases n with
      | zero => omega
      | succ n' =>
          obtain ⟨o1, ho1⟩ := hok 0 (by omega)
          rw [Nat.add_zero] at ho1
          obtain ⟨o2, ho2⟩ := hok 1 (by omega)
          have hrest := ih n' (k + 2) (j + 1) (by omega)
            (fun i hi => by
              have := hok (i + 2) (by omega)
              have he : k + (i + 2) = k + 2 + i := by omega
              rwa [he] at this)
            (by
              have he : k + (2 * (t + 1) + 1) = k + 2 + (2 * t + 1) := by omega
              rwa [he] at hfail)
          simp only [timingLoop, ho1, ho2,
            runCmd_ok fl bentag o2 (orc.elapsed j) hdry, hdry,
            Bool.false_eq_true, if_false, hrest]
          congr 1
          · rw [range_map_shift (fun d => recordLine bentag (orc.elapsed d)) t j]
            rfl
          · omega
          · omega

/-- Failure of the timed launch at iteration `t` of the normal timed loop:
the timed phases keep exactly the `t` completed record lines and abort
before any stripped-symbol work. -/
lemma doTimed_fail (fl : Flags) (orc : Oracle) (script cs : String) (v : Variant)
    (bentag : String) (k0 : Nat) (t : Nat) (m o : String)
    (hdry : fl.dryrun = false)
    (ht : t < fl.numit)
    (hok : ∀ i, i < 2 * t + 1 → ∃ ou, orc.res (k0 + i) = CmdResult.ok ou)
    (hfail : orc.res (k0 + (2 * t + 1)) = CmdResult.fail m o) :
    doTimed fl orc script cs v bentag k0 =
      ⟨(List.range t).map (fun i => recordLine bentag (orc.elapsed i)),
       [],
       (List.replicate t [cleanInv cs, timedInv orc script v]).flatten ++
         [cleanInv cs, timedInv orc script v],
       some (m ++ "\n" ++ o)⟩ := by
  have hTL := timingLoop_fail fl orc cs (timedInv orc script v) bentag hdry m o
    t fl.numit k0 0 ht hok hfail
  simp only [doTimed, hTL]
  simp

/-- Failure of the timed launch at iteration `t` of the timed loop inside
`doVariant`: the file name is still resolved from tag and revision, exactly
the `t` completed record lines are written, and the call aborts with the
wrapped error. -/
lemma doVariant_fail (fl : Flags) (orc : Oracle) (script cs : String) (v : Variant)
    (tag : String) (g h : String) (t : Nat) (m o : String)
    (hdry : fl.dryrun = false)
    (hgit : orc.gitRes = CmdResult.ok g)
    (hhash : grabVariantHash g = some h)
    (ht : t < fl.numit)
    (hsetup : ∀ i, i < (if fl.build then 2 else 3) → ∃ ou, orc.res i = CmdResult.ok ou)
    (hok : ∀ i, i < 2 * t + 1 →
        ∃ ou, orc.res ((if fl.build then 2 else 3) + i) = CmdResult.ok ou)
    (hfail : orc.res ((if fl.build then 2 else 3) + (2 * t + 1)) =
        CmdResult.fail m o) :
    (doVariant fl orc script cs v tag).fn =
        some ("out." ++ v.tag ++ "." ++ h ++ ".txt") ∧
    (doVariant fl orc script cs v tag).written =
        (List.range t).map (fun i =>
          recordLine ("Benchmark" ++ upFirst tag ++ "Kubelet") (orc.elapsed i)) ∧
    (doVariant fl orc script cs v tag).abort = some (m ++ "\n" ++ o) := by
  by_cases hb : fl.build
  · rw [if_pos hb] at hsetup hok hfail
    obtain ⟨o0, ho0⟩ := hsetup 0 (by omega)
    obtain ⟨o1, ho1⟩ := hsetup 1 (by omega)
    have hDT := doTimed_fail fl orc script cs v
      ("Benchmark" ++ upFirst tag ++ "Kubelet") 2 t m o hdry ht hok hfail
    simp only [doVariant, hgit, hhash, ho0, ho1, hb, if_true, hDT]
    refine ⟨?_, ?_, ?_⟩ <;> first | rfl | trivial
  · rw [if_neg hb] at hsetup hok hfail
    obtain ⟨o0, ho0⟩ := hsetup 0 (by omega)
    obtain ⟨o1, ho1⟩ := hsetup 1 (by omega)
    obtain ⟨o2, ho2⟩ := hsetup 2 (by omega)
    have hDT := doTimed_fail fl orc script cs v
      ("Benchmark" ++ upFirst tag ++ "Kubelet") 3 t m o hdry ht hok hfail
    simp only [doVariant, hgit, hhash, ho0, ho1, ho2, hb,
      Bool.false_eq_true, if_false, hDT]
    refine ⟨?_, ?_, ?_⟩ <;> first | rfl | trivial

/-- If every variant of `pre` completes and the next variant aborts, the
per-variant loop stops there: the final filesystem holds the files of
`pre` plus the aborting variant's (possibly truncated) file, and the fatal
message is surfaced. -/
lemma performLoop_abort (fl : Flags) (orc : Nat → Oracle) (script cs : String)
    (v : Variant) (rest : List Variant) (m : String) :
    ∀ (pre : List Variant) (i : Nat) (fsys : List (String × List String)),
      (∀ j v', pre.get? j = some v' →
        (doVariant fl (orc (i + j)) script cs v' (runTag fl)).abort = none) →
      (doVariant fl (orc (i + pre.length)) script cs v (runTag fl)).abort = some m →
      performLoop fl orc script cs (pre ++ v :: rest) i fsys =
        (performWrite fl (doVariant fl (orc (i + pre.length)) script cs v (runTag fl))
           (performFS fl orc script cs pre i fsys), some m) := by
  intro pre
  induction pre with
  | nil =>
      intro i fsys _ habort
      simp only [List.length_nil, Nat.add_zero] at habort ⊢
      simp only [List.nil_append, performLoop, performFS, habort]
  | cons p pre' ih =>
      intro i fsys hpre habort
      have hp := hpre 0 p rfl
      rw [Nat.add_zero] at hp
      have hpre' : ∀ j v', pre'.get? j = some v' →
          (doVariant fl (orc (i + 1 + j)) script cs v' (runTag fl)).abort = none := by
        intro j v' hj
        have := hpre (j + 1) v' (by simpa using hj)
        have he : i + (j + 1) = i + 1 + j := by omega
        rwa [he] at this
      have habort' :
          (doVariant fl (orc (i + 1 + pre'.length)) script cs v (runTag fl)).abort =
            some m := by
        have he : i + (p :: pre').length = i + 1 + pre'.length := by
          simp [List.length_cons]
          omega
        rwa [he] at habort
      have hrec := ih (i + 1)
        (performWrite fl (doVariant fl (orc i) script cs p (runTag fl)) fsys)
        hpre' habort'
      simp only [List.cons_append, performLoop, hp, performFS]
      have he : i + (p :: pre').length = i + 1 + pre'.length := by
        simp [List.length_cons]
        omega
      rw [he]
      exact hrec

/-- Reading a file that none of the variants of `vs` write leaves the
prior filesystem contents visible. -/
lemma performFS_read_of_none (fl : Flags) (orc : Nat → Oracle) (script cs : String) :
    ∀ (vs : List Variant) (i : Nat) (fsys : List (String × List String)) (fn : String),
      (∀ j v', vs.get? j = some v' →
        (doVariant fl (orc (i + j)) script cs v' (runTag fl)).fn ≠ some fn) →
      fsRead (performFS fl orc script cs vs i fsys) fn = fsRead fsys fn := by
  intro vs
  induction vs with
  | nil => intro i fsys fn _; rfl
  | cons p vs' ih =>
      intro i fsys fn hno
      have hno' : ∀ j v', vs'.get? j = some v' →
          (doVariant fl (orc (i + 1 + j)) script cs v' (runTag fl)).fn ≠ some fn := by
        intro j v' hj
        have := hno (j + 1) v' (by simpa using hj)
        have he : i + (j + 1) = i + 1 + j := by omega
        rwa [he] at this
      simp only [performFS]
      rw [ih (i + 1) _ fn hno']
      have hp := hno 0 p rfl
      rw [Nat.add_zero] at hp
      unfold performWrite
      by_cases hdry : fl.dryrun
      · simp [hdry]
      · simp only [hdry, Bool.false_eq_true, if_false]
        cases hfn : (doVariant fl (orc i) script cs p (runTag fl)).fn with
        | none => rfl
        | some fn2 =>
            have hne : fn2 ≠ fn := by
              intro he2
              exact hp (by rw [hfn, he2])
            simp [fsRead, hne]

/-- In a non-dry run, the file written by the `j`-th variant of `vs` reads
back its full content from the final filesystem, provided no later variant
of `vs` writes the same name. -/
lemma performFS_read_at (fl : Flags) (orc : Nat → Oracle) (script cs : String)
    (hdry : fl.dryrun = false) :
    ∀ (vs : List Variant) (i : Nat) (fsys : List (String × List String))
      (j : Nat) (v' : Variant) (fn : String),
      vs.get? j = some v' →
      (doVariant fl (orc (i + j)) script cs v' (runTag fl)).fn = some fn →
      (∀ j2 v2, j < j2 → vs.get? j2 = some v2 →
        (doVariant fl (orc (i + j2)) script cs v2 (runTag fl)).fn ≠ some fn) →
      fsRead (performFS fl orc script cs vs i fsys) fn =
        some (doVariant fl (orc (i + j)) script cs v' (runTag fl)).written := by
  intro vs
  induction vs with
  | nil =>
      intro i fsys j v' fn hj
      simp [List.get?] at hj
  | cons p vs' ih =>
      intro i fsys j v' fn hj hfn hno
      cases j with
      | zero =>
          have hpv : p = v' := by simpa using hj
          subst hpv
          rw [Nat.add_zero] at hfn ⊢
          have hno' : ∀ j2 v2, vs'.get? j2 = some v2 →
              (doVariant fl (orc (i + 1 + j2)) script cs v2 (runTag fl)).fn ≠
                some fn := by
            intro j2 v2 hj2
            have := hno (j2 + 1) v2 (by omega) (by simpa using hj2)
            have he : i + (j2 + 1) = i + 1 + j2 := by omega
            rwa [he] at this
          simp only [performFS]
          rw [performFS_read_of_none fl orc script cs vs' (i + 1) _ fn hno']
          unfold performWrite
          simp only [hdry, Bool.false_eq_true, if_false, hfn]
          simp [fsRead]
      | succ j' =>
          have hj' : vs'.get? j' = some v' := by simpa using hj
          have he : i + (j' + 1) = i + 1 + j' := by omega
          rw [he] at hfn ⊢
          have hno' : ∀ j2 v2, j' < j2 → vs'.get? j2 = some v2 →
              (doVariant fl (orc (i + 1 + j2)) script cs v2 (runTag fl)).fn ≠
                some fn := by
            intro j2 v2 hlt hj2
            have := hno (j2 + 1) v2 (by omega) (by simpa using hj2)
            have he2 : i + (j2 + 1) = i + 1 + j2 := by omega
            rwa [he2] at this
          simp only [performFS]
          exact ih (i + 1) _ j' v' fn hj' hfn hno'

/-- C4: if a timed build invocation fails at iteration `t` of the timed
loop while every earlier variant completed, the harness aborts fatally
with the wrapped error; the failing variant's output file holds exactly
the `t` record lines of the completed iterations — no line for the failed
invocation, none after it — and every earlier variant's output file (of a
name no later variant reuses, as distinct tags guarantee) still reads back
its full content, untouched. -/
theorem C4_abortIntact (fl : Flags) (orc : Nat → Oracle) (script cs : String)
    (pre : List Variant) (v : Variant) (rest : List Variant)
    (g h : String) (t : Nat) (m o : String)
    (hdry : fl.dryrun = false)
    (hpre : ∀ j v', pre.get? j = some v' →
      (doVariant fl (orc j) script cs v' (runTag fl)).abort = none)
    (hgit : (orc pre.length).gitRes = CmdResult.ok g)
    (hhash : grabVariantHash g = some h)
    (ht : t < fl.numit)
    (hsetup : ∀ i, i < (if fl.build then 2 else 3) →
      ∃ ou, (orc pre.length).res i = CmdResult.ok ou)
    (hok : ∀ i, i < 2 * t + 1 →
      ∃ ou, (orc pre.length).res ((if fl.build then 2 else 3) + i) = CmdResult.ok ou)
    (hfail : (orc pre.length).res ((if fl.build then 2 else 3) + (2 * t + 1)) =
      CmdResult.fail m o) :
    ∃ fs, perform fl orc script cs (pre ++ v :: rest) = (fs, some (m ++ "\n" ++ o)) ∧
      (doVariant fl (orc pre.length) script cs v (runTag fl)).written =
        (List.range t).map (fun i =>
          recordLine (benchTag fl) ((orc pre.length).elapsed i)) ∧
      fsRead fs ("out." ++ v.tag ++ "." ++ h ++ ".txt") =
        some ((List.range t).map (fun i =>
          recordLine (benchTag fl) ((orc pre.length).elapsed i))) ∧
      (∀ j v' fn, pre.get? j = some v' →
        (doVariant fl (orc j) script cs v' (runTag fl)).fn = some fn →
        (∀ j2 v2, j < j2 → (pre ++ [v]).get? j2 = some v2 →
          (doVariant fl (orc j2) script cs v2 (runTag fl)).fn ≠ some fn) →
        fsRead fs fn = some (doVariant fl (orc j) script cs v' (runTag fl)).written) := by
  obtain ⟨hfn, hwrit, habort⟩ := doVariant_fail fl (orc pre.length) script cs v
    (runTag fl) g h t m o hdry hgit hhash ht hsetup hok hfail
  have hPL := performLoop_abort fl orc script cs v rest (m ++ "\n" ++ o) pre 0 []
    (fun j v' hj => by simpa using hpre j v' hj)
    (by simpa using habort)
  refine ⟨performWrite fl (doVariant fl (orc pre.length) script cs v (runTag fl))
      (performFS fl orc script cs pre 0 []), ?_, ?_, ?_, ?_⟩
  · simpa [perform] using hPL
  · simpa [benchTag] using hwrit
  · unfold performWrite
    simp only [hdry, Bool.false_eq_true, if_false, hfn]
    simp [fsRead, hwrit, benchTag]
  · intro j v' fn hj hvfn hno
    have hjlt : j < pre.length := by
      obtain ⟨hlt, _⟩ := List.get?_eq_some.mp hj
      exact hlt
    have hgetv : (pre ++ [v]).get? pre.length = some v := by
      rw [List.get?_append_right (le_refl pre.length)]
      simp
    have hvne : ("out." ++ v.tag ++ "." ++ h ++ ".txt") ≠ fn := by
      intro he
      exact hno pre.length v hjlt hgetv (by rw [hfn, he])
    unfold performWrite
    simp only [hdry, Bool.false_eq_true, if_false, hfn]
    have hstep : fsRead (("out." ++ v.tag ++ "." ++ h ++ ".txt",
        (doVariant fl (orc pre.length) script cs v (runTag fl)).written) ::
          performFS fl orc script cs pre 0 []) fn =
        fsRead (performFS fl orc script cs pre 0 []) fn := by
      simp [fsRead, hvne]
    rw [hstep]
    have hno' : ∀ j2 v2, j < j2 → pre.get? j2 = some v2 →
        (doVariant fl (orc (0 + j2)) script cs v2 (runTag fl)).fn ≠ some fn := by
      intro j2 v2 hlt hj2
      have hlt2 : j2 < pre.length := by
        obtain ⟨h2, _⟩ := List.get?_eq_some.mp hj2
        exact h2
      have hj2' : (pre ++ [v]).get? j2 = some v2 := by
        rw [List.get?_append hlt2]
        exact hj2
      simpa using hno j2 v2 hlt hj2'
    have hread := performFS_read_at fl orc script cs hdry pre 0 [] j v' fn hj
      (by simpa using hvfn) hno'
    simpa using hread

/-- Concrete flags for the C4 scenario: two iterations, relink mode, no
stripped phase, not a dry run. -/
def c4Flags : Flags := ⟨false, false, 2, false, false, false⟩

/-- Oracle of the first (completing) variant in the C4 scenario. -/
def c4OrcA : Oracle :=
  ⟨fun _ => CmdResult.ok "", fun j => 10 + j, CmdResult.ok "h1 msg", []⟩

/-- Oracle of the second variant in the C4 scenario: its seventh shell
launch — the timed invocation of iteration 1 — fails. -/
def c4OrcB : Oracle :=
  ⟨fun k => if k = 6 then CmdResult.fail "boom" "out" else CmdResult.ok "",
   fun j => 20 + j, CmdResult.ok "h2 msg", []⟩

/-- Per-variant oracles of the C4 scenario. -/
def c4Orc : Nat → Oracle := fun i => if i = 0 then c4OrcA else c4OrcB

/-- First variant of the C4 scenario. -/
def c4va : Variant := ⟨"a", "ra", "", 0⟩

/-- Second (failing) variant of the C4 scenario. -/
def c4vb : Variant := ⟨"b", "rb", "", 0⟩

/-- C3: in a successful non-dry run with the stripped-symbol phase enabled,
every timed launch of the normal loop carries the script path followed by
the variant's extra-args tokens, while every timed launch of the
stripped-symbol loop carries the script path and nothing else — the
extra-args tokens are not forwarded there. -/
theorem C3_strippedArgs (fl : Flags) (orc : Oracle) (script cs : String)
    (v : Variant) (tag : String) (g h : String)
    (hdry : fl.dryrun = false) (hnod : fl.nodebug = true)
    (hok : ∀ i, ∃ o, orc.res i = CmdResult.ok o)
    (hgit : orc.gitRes = CmdResult.ok g)
    (hhash : grabVariantHash g = some h) :
    (doVariant fl orc script cs v tag).invs =
      [gitInv v, cleanInv cs] ++
        (if fl.build then [] else [warmupInv script v]) ++ [primeInv script v] ++
        ((List.replicate fl.numit
            [cleanInv cs, ⟨sh :: script :: strFields v.extras, timedEnvOf orc v⟩]).flatten ++
          (List.replicate fl.numit
            [cleanInv cs, ⟨[sh, script], timedEnvOf orc v⟩]).flatten) := by
  rw [doVariant_ok fl orc script cs v tag g h hdry hok hgit hhash]
  simp [hnod, timedInv, strippedInv]

/-- C3 witness: a concrete successful run (two iterations, relink mode,
stripped phase on, extra args `-x -y`, GOMAXPROCS 4). -/
theorem C3_strippedArgs_witness :
    (doVariant ⟨false, false, 2, true, false, false⟩
        ⟨fun _ => CmdResult.ok "", fun j => 100 + j, CmdResult.ok "abc123 msg",
         ["HOME=/root"]⟩
        "/tmp/relink1" "/tmp/clean1" ⟨"master", "/ssd/go.master", "-x -y", 4⟩
        "relink").invs =
      [gitInv ⟨"master", "/ssd/go.master", "-x -y", 4⟩, cleanInv "/tmp/clean1"] ++
        (if (false : Bool) then []
         else [warmupInv "/tmp/relink1" ⟨"master", "/ssd/go.master", "-x -y", 4⟩]) ++
        [primeInv "/tmp/relink1" ⟨"master", "/ssd/go.master", "-x -y", 4⟩] ++
        ((List.replicate 2
            [cleanInv "/tmp/clean1",
             ⟨sh :: "/tmp/relink1" ::
                strFields (Variant.extras ⟨"master", "/ssd/go.master", "-x -y", 4⟩),
              timedEnvOf
                ⟨fun _ => CmdResult.ok "", fun j => 100 + j, CmdResult.ok "abc123 msg",
                 ["HOME=/root"]⟩
                ⟨"master", "/ssd/go.master", "-x -y", 4⟩⟩]).flatten ++
          (List.replicate 2
            [cleanInv "/tmp/clean1",
             ⟨[sh, "/tmp/relink1"],
              timedEnvOf
                ⟨fun _ => CmdResult.ok "", fun j => 100 + j, CmdResult.ok "abc123 msg",
                 ["HOME=/root"]⟩
                ⟨"master", "/ssd/go.master", "-x -y", 4⟩⟩]).flatten) :=
  C3_strippedArgs ⟨false, false, 2, true, false, false⟩
    ⟨fun _ => CmdResult.ok "", fun j => 100 + j, CmdResult.ok "abc123 msg",
     ["HOME=/root"]⟩
    "/tmp/relink1" "/tmp/clean1" ⟨"master", "/ssd/go.master", "-x -y", 4⟩ "relink"
    "abc123 msg" "abc123" rfl rfl (fun _ => ⟨"", rfl⟩) rfl rfl

/-- C5: in a successful non-dry run with the stripped-symbol phase enabled,
the orchestrator writes exactly `numit` record lines under the base
benchmark name, regenerates the build script with the strip-debug-info
flag appended, then appends exactly `numit` more lines under the suffixed
name to the same stream, base lines first. -/
theorem C5_strippedPhase (fl : Flags) (orc : Oracle) (script cs : String)
    (v : Variant) (tag : String) (g h : String)
    (hdry : fl.dryrun = false) (hnod : fl.nodebug = true)
    (hok : ∀ i, ∃ o, orc.res i = CmdResult.ok o)
    (hgit : orc.gitRes = CmdResult.ok g)
    (hhash : grabVariantHash g = some h) :
    (doVariant fl orc script cs v tag).written =
      (List.range fl.numit).map (fun i =>
          recordLine ("Benchmark" ++ upFirst tag ++ "Kubelet") (orc.elapsed i)) ++
        (List.range fl.numit).map (fun i =>
          recordLine ("Benchmark" ++ upFirst tag ++ "Kubelet" ++ "-WithoutDebug")
            (orc.elapsed (fl.numit + i))) ∧
    ((List.range fl.numit).map (fun i =>
        recordLine ("Benchmark" ++ upFirst tag ++ "Kubelet") (orc.elapsed i))).length =
      fl.numit ∧
    ((List.range fl.numit).map (fun i =>
        recordLine ("Benchmark" ++ upFirst tag ++ "Kubelet" ++ "-WithoutDebug")
          (orc.elapsed (fl.numit + i)))).length = fl.numit ∧
    (doVariant fl orc script cs v tag).emits =
      [emitScript fl v "", emitScript fl v ldflagsNoDebug] := by
  rw [doVariant_ok fl orc script cs v tag g h hdry hok hgit hhash]
  refine ⟨by simp [hnod], by simp, by simp, by simp [hnod]⟩

/-- C5 witness: the concrete run of the C3 witness, with three iterations.
The output stream holds the three base-name lines and then the three
suffixed lines. -/
theorem C5_strippedPhase_witness :
    (doVariant ⟨false, false, 3, true, false, false⟩
        ⟨fun _ => CmdResult.ok "", fun j => 100 + j, CmdResult.ok "abc123 msg", []⟩
        "/tmp/relink1" "/tmp/clean1" ⟨"master", "/ssd/go.master", "", 0⟩
        "relink").written =
      (List.range 3).map (fun i =>
          recordLine ("Benchmark" ++ upFirst "relink" ++ "Kubelet")
            ((fun j => 100 + j) i)) ++
        (List.range 3).map (fun i =>
          recordLine ("Benchmark" ++ upFirst "relink" ++ "Kubelet" ++ "-WithoutDebug")
            ((fun j => 100 + j) (3 + i))) ∧
    ((List.range 3).map (fun i =>
        recordLine ("Benchmark" ++ upFirst "relink" ++ "Kubelet")
          ((fun j => 100 + j) i))).length = 3 ∧
    ((List.range 3).map (fun i =>
        recordLine ("Benchmark" ++ upFirst "relink" ++ "Kubelet" ++ "-WithoutDebug")
          ((fun j => 100 + j) (3 + i)))).length = 3 ∧
    (doVariant ⟨false, false, 3, true, false, false⟩
        ⟨fun _ => CmdResult.ok "", fun j => 100 + j, CmdResult.ok "abc123 msg", []⟩
        "/tmp/relink1" "/tmp/clean1" ⟨"master", "/ssd/go.master", "", 0⟩
        "relink").emits =
      [emitScript ⟨false, false, 3, true, false, false⟩ ⟨"master", "/ssd/go.master", "", 0⟩ "",
       emitScript ⟨false, false, 3, true, false, false⟩ ⟨"master", "/ssd/go.master", "", 0⟩
         ldflagsNoDebug] :=
  C5_strippedPhase ⟨false, false, 3, true, false, false⟩
    ⟨fun _ => CmdResult.ok "", fun j => 100 + j, CmdResult.ok "abc123 msg", []⟩
    "/tmp/relink1" "/tmp/clean1" ⟨"master", "/ssd/go.master", "", 0⟩ "relink"
    "abc123 msg" "abc123" rfl rfl (fun _ => ⟨"", rfl⟩) rfl rfl

/-- C10: in a non-dry run the variant's output file is named from both the
variant's tag and the revision token resolved for its toolchain root, in
the form `out.<tag>.<revision>.txt`, where the revision token is the first
space-delimited token of the `git log -1 --oneline` output (the most
recent log entry), as extracted by `grabVariantHash`. -/
theorem C10_outputName (fl : Flags) (orc : Oracle) (script cs : String)
    (v : Variant) (tag : String) (g h : String)
    (_hdry : fl.dryrun = false)
    (hgit : orc.gitRes = CmdResult.ok g)
    (hhash : grabVariantHash g = some h) :
    (doVariant fl orc script cs v tag).fn =
      some ("out." ++ v.tag ++ "." ++ h ++ ".txt") := by
  simp only [doVariant, hgit, hhash]
  cases orc.res 0 with
  | fail m o => rfl
  | ok o0 =>
      by_cases hb : fl.build <;> simp only [hb, Bool.false_eq_true, if_false, if_true]
      · cases orc.res 1 with
        | fail m o => rfl
        | ok o1 => rfl
      · cases orc.res 1 with
        | fail m o => rfl
        | ok o1 =>
            cases orc.res 2 with
            | fail m o => rfl
            | ok o2 => rfl

/-- C10 witness: the file name for a concrete git log line. -/
theorem C10_outputName_witness :
    (doVariant ⟨false, false, 2, false, false, false⟩
        ⟨fun _ => CmdResult.ok "", fun _ => 0, CmdResult.ok "deadbee fix the frobnicator",
         []⟩
        "/tmp/relink1" "/tmp/clean1" ⟨"master", "/ssd/go.master", "", 0⟩
        "relink").fn = some "out.master.deadbee.txt" :=
  C10_outputName ⟨false, false, 2, false, false, false⟩
    ⟨fun _ => CmdResult.ok "", fun _ => 0, CmdResult.ok "deadbee fix the frobnicator", []⟩
    "/tmp/relink1" "/tmp/clean1" ⟨"master", "/ssd/go.master", "", 0⟩ "relink"
    "deadbee fix the frobnicator" "deadbee" rfl rfl rfl

/-- C4 witness: two variants, the second failing its timed launch at
iteration 1 of 2.  The run aborts with the wrapped error, the failing
variant's file holds exactly the single completed record line, and the
first variant's file reads back in full. -/
theorem C4_abortIntact_witness :
    ∃ fs, perform c4Flags c4Orc "/s" "/c" ([c4va] ++ c4vb :: []) =
        (fs, some ("boom" ++ "\n" ++ "out")) ∧
      (doVariant c4Flags (c4Orc [c4va].length) "/s" "/c" c4vb (runTag c4Flags)).written =
        (List.range 1).map (fun i =>
          recordLine (benchTag c4Flags) ((c4Orc [c4va].length).elapsed i)) ∧
      fsRead fs ("out." ++ c4vb.tag ++ "." ++ "h2" ++ ".txt") =
        some ((List.range 1).map (fun i =>
          recordLine (benchTag c4Flags) ((c4Orc [c4va].length).elapsed i))) ∧
      (∀ j v' fn, [c4va].get? j = some v' →
        (doVariant c4Flags (c4Orc j) "/s" "/c" v' (runTag c4Flags)).fn = some fn →
        (∀ j2 v2, j < j2 → ([c4va] ++ [c4vb]).get? j2 = some v2 →
          (doVariant c4Flags (c4Orc j2) "/s" "/c" v2 (runTag c4Flags)).fn ≠ some fn) →
        fsRead fs fn =
          some (doVariant c4Flags (c4Orc j) "/s" "/c" v' (runTag c4Flags)).written) :=
  C4_abortIntact c4Flags c4Orc "/s" "/c" [c4va] c4vb [] "h2 msg" "h2" 1 "boom" "out"
    rfl
    (by
      intro j v' hj
      cases j with
      | zero =>
          simp at hj
          subst hj
          rfl
      | succ n => simp at hj)
    rfl rfl (by decide)
    (by
      intro i hi
      refine ⟨"", ?_⟩
      have hi3 : i < 3 := hi
      have h6 : i ≠ 6 := by omega
      simp [c4Orc, c4OrcB, h6])
    (by
      intro i hi
      refine ⟨"", ?_⟩
      have hi3 : i < 3 := hi
      have h6 : 3 + i ≠ 6 := by omega
      simp [c4Orc, c4OrcB, c4Flags, h6])
    rfl

/-- C1 counterexample.  The claim asserts that in dry-run mode the timing
step is skipped and no record line is written to the destination stream.
In the code the `fmt.Fprintf(outf, "%s 1 %d ns/op\n", ...)` sits after the
dry-run branch and runs unconditionally, and the timer is read around the
branch: with dry-run on, `runCmd` still returns a record line for the
destination stream (here with the measured duration 0), even when the
would-be command result is a failure. -/
theorem C1_counterexample :
    runCmd ⟨false, false, 20, false, true, false⟩ "BenchmarkRelinkKubelet"
        (CmdResult.fail "exit status 1" "boom") 0 =
      Except.ok ⟨["BenchmarkRelinkKubelet 1 0 ns/op"], ["... executing timing run"]⟩ :=
  rfl

/-- C1 amended: in dry-run mode no external process is launched (the result
of `runCmd` is independent of the command's would-be outcome) and a trace
line describing the intended action is emitted — but the timer is still
read, and exactly one record line carrying the (near-zero) measured
duration is still written to the destination output stream. -/
theorem C1_dryrun (fl : Flags) (name : String) (res res' : CmdResult) (elapsed : Nat)
    (hdry : fl.dryrun = true) :
    runCmd fl name res elapsed = runCmd fl name res' elapsed ∧
    runCmd fl name res elapsed =
      Except.ok ⟨[recordLine name elapsed],
        "... executing timing run" ::
          (if fl.verb then ["... timing run took " ++ toString elapsed ++ " ns"] else [])⟩ := by
  constructor <;> simp [runCmd, hdry]

/-- C1 witness: the amended statement at a concrete dry-run invocation. -/
theorem C1_dryrun_witness :
    (Flags.dryrun ⟨false, false, 20, false, true, false⟩ = true) ∧
    (runCmd ⟨false, false, 20, false, true, false⟩ "B" (CmdResult.fail "e" "o") 7 =
        runCmd ⟨false, false, 20, false, true, false⟩ "B" (CmdResult.ok "fine") 7 ∧
      runCmd ⟨false, false, 20, false, true, false⟩ "B" (CmdResult.fail "e" "o") 7 =
        Except.ok ⟨["B 1 7 ns/op"], ["... executing timing run"]⟩) :=
  ⟨rfl, C1_dryrun ⟨false, false, 20, false, true, false⟩ "B"
    (CmdResult.fail "e" "o") (CmdResult.ok "fine") 7 rfl⟩

/-- C6: for every base environment and positive parallelism value, the
overlay returns the base list (the ambient process environment substituted
when the base is empty) with every entry starting with `GOMAXPROCS=`
removed, order of the remaining entries preserved, and exactly one fresh
`GOMAXPROCS=<p>` entry appended; exactly one entry of the result controls
parallelism.  (The Go function builds a fresh slice `rv`, so the base list
is never mutated; in the embedding lists are immutable by construction.) -/
theorem C6_overlay (ambient env : List String) (p : Int) (_hp : 0 < p) :
    addGoMaxProcsEnv ambient env p =
      ((if env.length = 0 then ambient else env).filter
          (fun v => !hasPrefixStr "GOMAXPROCS=" v)) ++
        ["GOMAXPROCS=" ++ toString p] ∧
    (addGoMaxProcsEnv ambient env p).countP
        (fun v => hasPrefixStr "GOMAXPROCS=" v) = 1 := by
  refine ⟨addGoMaxProcsEnv_eq ambient env p, ?_⟩
  rw [addGoMaxProcsEnv_eq, List.countP_append]
  have h1 : (List.filter (fun v => !hasPrefixStr "GOMAXPROCS=" v)
      (if env.length = 0 then ambient else env)).countP
        (fun v => hasPrefixStr "GOMAXPROCS=" v) = 0 := by
    rw [List.countP_eq_zero]
    intro a ha
    have := List.of_mem_filter ha
    simpa using this
  have h2 : List.countP (fun v => hasPrefixStr "GOMAXPROCS=" v)
      ["GOMAXPROCS=" ++ toString p] = 1 := by
    have hpre : hasPrefixStr "GOMAXPROCS=" ("GOMAXPROCS=" ++ toString p) = true := by
      have hdata : ("GOMAXPROCS=" ++ toString p).data =
          "GOMAXPROCS=".data ++ (toString p).data := by
        simp [String.data_append]
      rw [hasPrefixStr, hdata]
      exact hasPrefixCh_append _ _
    simp [List.countP_cons, hpre]
  rw [h1, h2]

/-- C6 witness: the overlay at the spec's concrete example. -/
theorem C6_overlay_witness :
    (0 : Int) < 8 ∧
    (addGoMaxProcsEnv [] ["A=1", "GOMAXPROCS=4", "B=2"] 8 =
        ["A=1", "B=2", "GOMAXPROCS=8"] ∧
      (addGoMaxProcsEnv [] ["A=1", "GOMAXPROCS=4", "B=2"] 8).countP
          (fun v => hasPrefixStr "GOMAXPROCS=" v) = 1) :=
  ⟨by decide, C6_overlay [] ["A=1", "GOMAXPROCS=4", "B=2"] 8 (by decide)⟩

/-- C7: every successful non-dry-run timed invocation appends exactly one
line of the exact form `<name> 1 <d> ns/op` to the destination stream. -/
theorem C7_record (fl : Flags) (name out : String) (elapsed : Nat)
    (hdry : fl.dryrun = false) :
    ∃ r : RunResult,
      runCmd fl name (CmdResult.ok out) elapsed = Except.ok r ∧
        r.outLines = [name ++ " 1 " ++ toString elapsed ++ " ns/op"] :=
  ⟨⟨[recordLine name elapsed],
      (if fl.verb then ["... output: " ++ out] else []) ++
        (if fl.verb then ["... timing run took " ++ toString elapsed ++ " ns"] else [])⟩,
    by simp [runCmd, hdry], rfl⟩

/-- C2 counterexample.  The claim demands that the reported line number
count every line of the file, blank lines included.  Here the malformed
line (field count 5) is the second line of the file, after one blank line,
but the loader reports line 1: blank lines never advance the counter. -/
theorem C2_counterexample :
    readvariants ["", "a:b:c:d:e"] (fun _ => true) =
      Except.error (LoadErr.malformed 1 5) ∧ (1 : Nat) ≠ 2 :=
  ⟨rfl, by decide⟩

/-- C2 amended: a config line whose colon-separated field count is not 2, 3
or 4 is fatal, and the diagnostic reports a 1-based counter that counts the
preceding comment and data lines but skips blank lines (so it equals the
true 1-based file line number only when no blank line precedes). -/
theorem C2_lineNum (pre : List String) (st' : LoopState) (l : String)
    (rest : List String) (c : String → Bool)
    (hpre : readLoop pre initState = Except.ok st')
    (hlen : l.length ≠ 0) (hhead : l.data.head? ≠ some '#')
    (h2 : (splitColon l).length ≠ 2) (h3 : (splitColon l).length ≠ 3)
    (h4 : (splitColon l).length ≠ 4) :
    readvariants (pre ++ l :: rest) c =
      Except.error (LoadErr.malformed
        (1 + pre.countP (fun s => !(s.length == 0))) (splitColon l).length) := by
  have hnum := readLoop_ok_lineNum hpre
  have hline : processLine st' l =
      Except.error (LoadErr.malformed st'.lineNum (splitColon l).length) := by
    simp only [processLine]
    rw [if_neg hlen, if_neg hhead]
    rcases htok : splitColon l with _ | ⟨a, _ | ⟨b, _ | ⟨x, _ | ⟨d, _ | ⟨e, tl⟩⟩⟩⟩⟩
    · rfl
    · rfl
    · exact absurd (by rw [htok]; rfl) h2
    · exact absurd (by rw [htok]; rfl) h3
    · exact absurd (by rw [htok]; rfl) h4
    · rfl
  have hloop : readLoop (pre ++ l :: rest) initState =
      Except.error (LoadErr.malformed st'.lineNum (splitColon l).length) := by
    rw [readLoop_append, hpre]
    simp only [Except.bind, readLoop]
    rw [hline]
  simp only [readvariants]
  rw [hloop, hnum]
  rfl

/-- C2 witness: one comment line and one blank line precede a malformed
one-field line; the reported counter is 2 (comment counted, blank not),
matching the amended claim. -/
theorem C2_lineNum_witness :
    readvariants ["# c", "", "x"] (fun _ => true) =
      Except.error (LoadErr.malformed 2 1) :=
  C2_lineNum ["# c", ""] ⟨2, [], [], [], []⟩ "x" [] (fun _ => true) rfl
    (by decide) (by decide) (by decide) (by decide) (by decide)

/-- C8: two config lines sharing a tag make the loader fail fatally, while
two lines sharing a toolchain root but not a tag only produce the
duplicate-goroot warning, with both variants present, in file order, in the
loaded sequence. -/
theorem C8_duplicates (l1 l2 t1 r1 t2 r2 : String) (c : String → Bool)
    (h1len : l1.length ≠ 0) (h1head : l1.data.head? ≠ some '#')
    (h1split : splitColon l1 = [t1, r1])
    (h2len : l2.length ≠ 0) (h2head : l2.data.head? ≠ some '#')
    (h2split : splitColon l2 = [t2, r2])
    (hc1 : c (r1 ++ "/bin/go") = true) (hc2 : c (r2 ++ "/bin/go") = true) :
    (t1 = t2 → readvariants [l1, l2] c = Except.error (LoadErr.dupTag t2)) ∧
    (t1 ≠ t2 → r1 = r2 →
      readvariants [l1, l2] c =
        Except.ok ⟨[⟨t1, r1, "", 0⟩, ⟨t2, r2, "", 0⟩], [rootWarn r2]⟩) := by
  have hstep1 : processLine initState l1 =
      Except.ok ⟨2, [t1], [r1], [⟨t1, r1, "", 0⟩], []⟩ := by
    simp only [processLine]
    rw [if_neg h1len, if_neg h1head, h1split]
    simp [processFields, initState]
  constructor
  · intro heq
    subst heq
    have hstep2 : processLine ⟨2, [t1], [r1], [⟨t1, r1, "", 0⟩], []⟩ l2 =
        Except.error (LoadErr.dupTag t1) := by
      simp only [processLine]
      rw [if_neg h2len, if_neg h2head, h2split]
      simp [processFields]
    simp only [readvariants, readLoop]
    rw [hstep1]
    simp only [Except.bind]
    rw [hstep2]
  · intro hne hroot
    subst hroot
    have hstep2 : processLine ⟨2, [t1], [r1], [⟨t1, r1, "", 0⟩], []⟩ l2 =
        Except.ok ⟨3, [t1, t2], [r1, r1], [⟨t1, r1, "", 0⟩, ⟨t2, r1, "", 0⟩],
          [rootWarn r1]⟩ := by
      simp only [processLine]
      rw [if_neg h2len, if_neg h2head, h2split]
      simp [processFields, hne, Ne.symm hne]
    simp only [readvariants, readLoop]
    rw [hstep1]
    simp only [Except.bind]
    rw [hstep2]
    simp [Except.bind, List.find?, hc1, hc2]

/-- C8 witness: the two halves of the claim at the concrete lines
`a:r` and `b:r` (shared root, distinct tags). -/
theorem C8_duplicates_witness :
    (("a" : String) = "b" →
      readvariants ["a:r", "b:r"] (fun _ => true) =
        Except.error (LoadErr.dupTag "b")) ∧
    (("a" : String) ≠ "b" → ("r" : String) = "r" →
      readvariants ["a:r", "b:r"] (fun _ => true) =
        Except.ok ⟨[⟨"a", "r", "", 0⟩, ⟨"b", "r", "", 0⟩], [rootWarn "r"]⟩) :=
  C8_duplicates "a:r" "b:r" "a" "r" "b" "r" (fun _ => true)
    (by decide) (by decide) rfl (by decide) (by decide) rfl rfl rfl

/-- C9 counterexample.  The claim requires a fatal error whenever the
fourth field of a 4-field line does not parse as an integer.  The empty
string does not parse as an integer, yet a 4-field line with an empty
fourth field loads successfully (the `gomaxps != ""` guard skips the parse)
and silently leaves the variant's parallelism at 0 (inherit). -/
theorem C9_counterexample :
    sscanfInt "" = none ∧
    readvariants ["t:r:e:"] (fun _ => true) =
      Except.ok ⟨[⟨"t", "r", "e", 0⟩], [singleWarn]⟩ :=
  ⟨rfl, rfl⟩

/-- C9 amended: for a 4-field config line whose fourth field is non-empty,
a field that does not scan as a 64-bit integer (optional sign, at least
one decimal digit, value within the int64 range) is fatal with the
offending tag named, a scanned value below 1 is fatal with the offending
tag named, and otherwise the scanned value becomes the variant's
parallelism.  (A line with an empty fourth field skips the scan and keeps
parallelism 0.) -/
theorem C9_gomaxp (l t g e m : String) (c : String → Bool)
    (hlen : l.length ≠ 0) (hhead : l.data.head? ≠ some '#')
    (hsplit : splitColon l = [t, g, e, m]) (hm : m ≠ "")
    (hc : c (g ++ "/bin/go") = true) :
    (sscanfInt m = none → readvariants [l] c = Except.error (LoadErr.badGomaxp t m)) ∧
    (∀ k : Int, sscanfInt m = some k → k < 1 →
        readvariants [l] c = Except.error (LoadErr.invalidGomaxp t)) ∧
    (∀ k : Int, sscanfInt m = some k → 1 ≤ k →
        readvariants [l] c = Except.ok ⟨[⟨t, g, e, k⟩], [singleWarn]⟩) := by
  refine ⟨?_, ?_, ?_⟩
  · intro hscan
    have hline : processLine initState l = Except.error (LoadErr.badGomaxp t m) := by
      simp only [processLine]
      rw [if_neg hlen, if_neg hhead, hsplit]
      simp [processFields, hm, hscan]
    simp only [readvariants, readLoop]
    rw [hline]
    simp [Except.bind]
  · intro k hscan hk
    have hline : processLine initState l = Except.error (LoadErr.invalidGomaxp t) := by
      simp only [processLine]
      rw [if_neg hlen, if_neg hhead, hsplit]
      simp [processFields, hm, hscan, hk]
    simp only [readvariants, readLoop]
    rw [hline]
    simp [Except.bind]
  · intro k hscan hk
    have hline : processLine initState l =
        Except.ok ⟨2, [t], [g], [⟨t, g, e, k⟩], []⟩ := by
      simp only [processLine]
      rw [if_neg hlen, if_neg hhead, hsplit]
      simp [processFields, hm, hscan, initState, not_lt.mpr hk]
    simp only [readvariants, readLoop]
    rw [hline]
    simp [Except.bind, List.find?, hc]

/-- C9 witness: the non-numeric branch of the amended claim at the concrete
line `t:r:e:x`. -/
theorem C9_gomaxp_witness :
    (sscanfInt "x" = none →
      readvariants ["t:r:e:x"] (fun _ => true) =
        Except.error (LoadErr.badGomaxp "t" "x")) ∧
    (∀ k : Int, sscanfInt "x" = some k → k < 1 →
      readvariants ["t:r:e:x"] (fun _ => true) =
        Except.error (LoadErr.invalidGomaxp "t")) ∧
    (∀ k : Int, sscanfInt "x" = some k → 1 ≤ k →
      readvariants ["t:r:e:x"] (fun _ => true) =
        Except.ok ⟨[⟨"t", "r", "e", k⟩], [singleWarn]⟩) :=
  C9_gomaxp "t:r:e:x" "t" "r" "e" "x" (fun _ => true)
    (by decide) (by decide) rfl (by decide) rfl

/-- C7 witness: a concrete successful timed invocation. -/
theorem C7_record_witness :
    ∃ r : RunResult,
      runCmd ⟨false, false, 20, false, false, false⟩ "BenchmarkRelinkKubelet"
          (CmdResult.ok "") 123456789 = Except.ok r ∧
        r.outLines = ["BenchmarkRelinkKubelet" ++ " 1 " ++ toString 123456789 ++ " ns/op"] :=
  C7_record ⟨false, false, 20, false, false, false⟩ "BenchmarkRelinkKubelet" "" 123456789 rfl

end TimeVariants
